import Mathlib

/-!
Verification of the k8s-status-badge service (src/main.go).

The service queries a Kubernetes cluster for pods and nodes and renders
shields.io-style badge JSON.  This file embeds the decision logic of
`main.go` shallowly:

* the inline color computation of `handlePods` (main.go:121-129), which
  divides two Go `int` counters as `float64` and compares the quotient
  against the literals `0.5` and `0.8`, is modelled by an exact IEEE-754
  binary64 (round-to-nearest, ties-to-even) semantics over ℕ/ℚ;
* the counting loops of `handlePods` / `handleNodes` are modelled as folds,
  with the possibly-panicking slice indexing `conditions[len(conditions)-1]`
  (main.go:147) embedded as an `Option`;
* the handlers themselves are functions from the outcome of the cluster
  list query (`Except`, error string as produced by `err.Error()`) to an
  HTTP response; a `none` result of `handleNodes` marks the Go runtime
  panic raised by the out-of-range indexing.
-/

namespace K8sBadge

/-- Badge color constants (main.go:33-37). -/
def BADGE_COLOR_FATAL : String := "red"

/-- Badge color constant for the middle band (main.go:35). -/
def BADGE_COLOR_WARN : String := "yellow"

/-- Badge color constant for the healthy band (main.go:36). -/
def BADGE_COLOR_HEALTHY : String := "blue"

/-! ### Exact model of the float64 arithmetic in handlePods

`rate := float64(healthyPodsCount) / float64(len(pods.Items))` followed by
`rate < 0.5` and `rate < 0.8` (main.go:122-128).  Both operands are
non-negative Go `int`s with `healthyPodsCount ≤ len(pods.Items)`, so the
quotient lies in `[0,1] ∪ {NaN}` (`0/0` is NaN; `x/0` for `x>0` is `+Inf`,
unreachable here but modelled).  IEEE-754 binary64 conversion and division
round the exact value to 53 significant bits, to nearest, ties to even.

The Go literal `0.5` is exactly representable; the literal `0.8` denotes
the binary64 value `7205759403792794 / 2^53` (since `0.8 * 2^53 =
7205759403792793.6` rounds to `7205759403792794`).
-/

/-- Mantissa of the binary64 value of the Go literal `0.8`. -/
def M8 : ℕ := 7205759403792794

/-- `expSearch fuel a t` is the least `k` (searching `k = 0, 1, …, fuel`)
with `a * 2^k ≥ t`, used to locate the binade of a quotient `a / t ≤ 1`. -/
def expSearch : ℕ → ℕ → ℕ → ℕ
  | 0, _, _ => 0
  | fuel + 1, a, t => if t ≤ a then 0 else expSearch fuel (2 * a) t + 1

/-- Round-to-nearest, ties-to-even, of the integer `n` to a binary64-exact
integer: the Go conversion `float64(n)` for a non-negative `int n`.
Integers up to `2^53` are exact; above, the low `j` bits are rounded away,
where `j` is least with `n < 2^(53+j)`. -/
def cvt (n : ℕ) : ℕ :=
  if n ≤ 2 ^ 53 then n
  else
    let j := expSearch 128 (2 ^ 53) (n + 1)
    let m0 := n / 2 ^ j
    let rem := n % 2 ^ j
    let m := if 2 ^ j < 2 * rem ∨ (2 * rem = 2 ^ j ∧ m0 % 2 = 1) then m0 + 1 else m0
    m * 2 ^ j

/-- A Go `float64` value as produced by the division in `handlePods`:
`NaN`, `+Inf`, or a finite dyadic `m / 2^(52+k)` (value range `[0,1]`,
mantissa `m ≤ 2^53`, binade exponent `-k`). -/
inductive GoFloat where
  | nan : GoFloat
  | inf : GoFloat
  | fin (m : ℕ) (k : ℕ) : GoFloat
deriving DecidableEq

/-- The rational value of a finite `GoFloat` (`none` for NaN/Inf). -/
def GoFloat.val : GoFloat → Option ℚ
  | .nan => none
  | .inf => none
  | .fin m k => some ((m : ℚ) / 2 ^ (52 + k))

/-- IEEE comparison `rate < 0.5` (main.go:123): false on NaN and `+Inf`,
exact value comparison with `1/2 = 2^(51+k)/2^(52+k)` otherwise. -/
def GoFloat.ltHalf : GoFloat → Bool
  | .nan => false
  | .inf => false
  | .fin m k => decide (2 * m < 2 ^ (52 + k))

/-- IEEE comparison `rate < 0.8` (main.go:125) against the binary64 value
`M8 / 2^53` of the literal `0.8`: false on NaN and `+Inf`, exact value
comparison (cross-multiplied) otherwise. -/
def GoFloat.ltPoint8 : GoFloat → Bool
  | .nan => false
  | .inf => false
  | .fin m k => decide (m * 2 ^ 53 < M8 * 2 ^ (52 + k))

/-- Correctly rounded binary64 division of binary64-exact integers
`h ≤ t`: locate the binade (`k` least with `h * 2^k ≥ t`, so
`h/t ∈ [2^(-k), 2^(-k+1))`), scale to a 53-bit mantissa and round to
nearest, ties to even.  `t = 0` yields NaN (`0/0`) or `+Inf`. -/
def divFloat (h t : ℕ) : GoFloat :=
  if t = 0 then (if h = 0 then .nan else .inf)
  else
    let k := expSearch 128 h t
    let num := h * 2 ^ (52 + k)
    let m0 := num / t
    let rem := num % t
    let m := if t < 2 * rem ∨ (2 * rem = t ∧ m0 % 2 = 1) then m0 + 1 else m0
    .fin m k

/-- The value of `rate` in `handlePods` (main.go:122):
`float64(h) / float64(t)`. -/
def goRate (h t : ℕ) : GoFloat := divFloat (cvt h) (cvt t)

/-- The inline color computation of `handlePods` (main.go:121-129). -/
def classify (h t : ℕ) : String :=
  let rate := goRate h t
  if rate.ltHalf then BADGE_COLOR_FATAL
  else if rate.ltPoint8 then BADGE_COLOR_WARN
  else BADGE_COLOR_HEALTHY

/-! ### Resource records, counting loops, handlers -/

/-- A pod status record; the code reads only `pod.Status.Phase`
(main.go:117). -/
structure Pod where
  phase : String
deriving DecidableEq

/-- A node condition; the code reads only `.Status` (main.go:147). -/
structure NodeCondition where
  status : String
deriving DecidableEq

/-- A node status record; the code reads only `node.Status.Conditions`
(main.go:146). -/
structure Node where
  conditions : List NodeCondition
deriving DecidableEq

/-- The per-pod health test of the counting loop (main.go:117):
`pod.Status.Phase == "Running" || pod.Status.Phase == "Succeeded"`. -/
def podIsHealthy (p : Pod) : Bool :=
  p.phase == "Running" || p.phase == "Succeeded"

/-- The pods counting loop (main.go:115-120). -/
def healthyPodsCount (pods : List Pod) : ℕ :=
  pods.foldl (fun acc p => if podIsHealthy p then acc + 1 else acc) 0

/-- The per-node health test (main.go:146-147):
`conditions[len(conditions)-1].Status == "True"`, where the indexing
panics when `conditions` is empty; `none` marks that panic. -/
def nodeLastCond (n : Node) : Option NodeCondition :=
  n.conditions[n.conditions.length - 1]?

/-- Whether a node counts as healthy, with the out-of-range indexing on an
empty conditions slice embedded as `none`. -/
def nodeIsHealthy (n : Node) : Option Bool :=
  (nodeLastCond n).map (fun c => c.status == "True")

/-- The nodes counting loop (main.go:144-150); `none` marks the runtime
panic on the first node whose conditions slice is empty. -/
def healthyNodesCount (nodes : List Node) : Option ℕ :=
  nodes.foldlM
    (fun acc n =>
      match nodeIsHealthy n with
      | some b => some (if b then acc + 1 else acc)
      | none => none)
    0

/-- The badge JSON document (the `echo.Map` of main.go:130-135,151-156). -/
structure Badge where
  schemaVersion : ℕ
  label : String
  message : String
  color : String
deriving DecidableEq

/-- An HTTP response body: a bare JSON string (error responses and
`/healthz`) or a badge document. -/
inductive Body where
  | text (s : String) : Body
  | badge (b : Badge) : Body
deriving DecidableEq

/-- An HTTP response as produced through `ctx.JSON(status, body)`. -/
structure Response where
  status : ℕ
  body : Body
deriving DecidableEq

/-- The color field of a badge response, if any. -/
def Response.badgeColor (r : Response) : Option String :=
  match r.body with
  | .badge b => some b.color
  | .text _ => none

/-- `handlePods` (main.go:109-137) as a function of the outcome of the
cluster pod-list query and of the configured environment label
(`conf.Env`).  On query error: status 500, body the error text
(main.go:110-114).  Otherwise: count, classify, and respond 200 with the
badge document (main.go:115-136). -/
def handlePods (query : Except String (List Pod)) (env : String) : Response :=
  match query with
  | .error e => ⟨500, .text e⟩
  | .ok pods =>
      let h := healthyPodsCount pods
      let t := pods.length
      ⟨200, .badge ⟨1, "pods(" ++ env ++ ")",
        Nat.repr h ++ "/" ++ Nat.repr t, classify h t⟩⟩

/-- `handleNodes` (main.go:138-157) as a function of the outcome of the
cluster node-list query and of the environment label.  On query error:
status 500 with the error text (main.go:139-143).  Otherwise it counts
(possibly panicking on an empty conditions slice, modelled by `none`) and
responds 200 with a badge whose color is the constant `"blue"`
(main.go:151-156). -/
def handleNodes (query : Except String (List Node)) (env : String) :
    Option Response :=
  match query with
  | .error e => some ⟨500, .text e⟩
  | .ok nodes =>
      match healthyNodesCount nodes with
      | none => none
      | some h =>
          some ⟨200, .badge ⟨1, "nodes(" ++ env ++ ")",
            Nat.repr h ++ "/" ++ Nat.repr nodes.length, "blue"⟩⟩

/-- The state of the process-wide cluster handle `k8sClient` (main.go:30);
`healthz` never reads it. -/
inductive ClusterState where
  | reachable : ClusterState
  | broken : ClusterState
  | unset : ClusterState
deriving DecidableEq

/-- `healthz` (main.go:105-107): constant 200 / `"ok"`, taking the cluster
handle state as an (ignored) argument. -/
def healthz (_cluster : ClusterState) : Response := ⟨200, .text "ok"⟩

/-- Route handler tags for the route table of `main` (main.go:60-63). -/
inductive HandlerTag where
  | healthzTag : HandlerTag
  | podsTag : HandlerTag
  | nodesTag : HandlerTag
deriving DecidableEq

/-- The route table registered in `main` (main.go:60-63): method, path,
handler. -/
def routes : List ((String × String) × HandlerTag) :=
  [(("GET", "/healthz"), .healthzTag),
   (("HEAD", "/healthz"), .healthzTag),
   (("GET", "/pods"), .podsTag),
   (("GET", "/nodes"), .nodesTag)]

/-! ### Properties of the float64 model -/

/-- `expSearch` reaches its target: if `t ≤ a * 2^fuel` then
`t ≤ a * 2^(expSearch fuel a t)`. -/
theorem expSearch_le (fuel a t : ℕ) (h : t ≤ a * 2 ^ fuel) :
    t ≤ a * 2 ^ expSearch fuel a t := by
  induction fuel generalizing a with
  | zero => simpa [expSearch] using h
  | succ n ih =>
    rw [expSearch]
    by_cases hta : t ≤ a
    · rw [if_pos hta]; simpa using hta
    · rw [if_neg hta]
      have h2 : t ≤ 2 * a * 2 ^ n := by
        calc t ≤ a * 2 ^ (n + 1) := h
          _ = 2 * a * 2 ^ n := by ring
      calc t ≤ 2 * a * 2 ^ expSearch n (2 * a) t := ih (2 * a) h2
        _ = a * 2 ^ (expSearch n (2 * a) t + 1) := by ring

/-- `expSearch` is minimal: a positive result `k` means `a * 2^(k-1) < t`. -/
theorem expSearch_min (fuel a t : ℕ) (hpos : 0 < expSearch fuel a t) :
    a * 2 ^ (expSearch fuel a t - 1) < t := by
  induction fuel generalizing a with
  | zero => simp [expSearch] at hpos
  | succ n ih =>
    rw [expSearch] at hpos ⊢
    by_cases hta : t ≤ a
    · rw [if_pos hta] at hpos; omega
    · rw [if_neg hta] at hpos ⊢
      push_neg at hta
      rcases Nat.eq_zero_or_pos (expSearch n (2 * a) t) with hz | hp
      · rw [hz]; simpa using hta
      · have hlt := ih (2 * a) hp
        have he : expSearch n (2 * a) t + 1 - 1
            = (expSearch n (2 * a) t - 1) + 1 := by omega
        calc a * 2 ^ (expSearch n (2 * a) t + 1 - 1)
            = 2 * a * 2 ^ (expSearch n (2 * a) t - 1) := by rw [he]; ring
          _ < t := hlt

/-- Round-to-nearest (ties to even) of `h * 2^(52+k) / t` compared with the
binary64 value `1/2 = 2^(51+k) / 2^(52+k)`: for `1 ≤ h ≤ t ≤ 2^53` and `k`
the binade index of `h/t`, the rounded mantissa `m` satisfies
`m / 2^(52+k) < 1/2` exactly when `h/t < 1/2`. -/
theorem round_lt_half (h t k m0 rem m : ℕ)
    (h1 : 1 ≤ h) (hht : h ≤ t) (htb : t ≤ 2 ^ 53)
    (hk1 : t ≤ h * 2 ^ k) (hk2 : 1 ≤ k → h * 2 ^ (k - 1) < t)
    (hm0 : m0 = h * 2 ^ (52 + k) / t) (hrem : rem = h * 2 ^ (52 + k) % t)
    (hm : m = if t < 2 * rem ∨ (2 * rem = t ∧ m0 % 2 = 1) then m0 + 1 else m0) :
    (2 * m < 2 ^ (52 + k) ↔ 2 * h < t) := by
  have ht : 0 < t := lt_of_lt_of_le h1 hht
  have hdm : t * m0 + rem = h * 2 ^ (52 + k) := by
    rw [hm0, hrem]; exact Nat.div_add_mod _ t
  have hrlt : rem < t := by rw [hrem]; exact Nat.mod_lt _ ht
  rcases lt_or_ge (2 * h) t with hB | hA
  · -- below one half: the rounding cannot reach 1/2
    simp only [hB, iff_true]
    have hk2' : 2 ≤ k := by
      by_contra hlt
      push_neg at hlt
      interval_cases k
      · simp only [pow_zero, mul_one] at hk1; omega
      · simp only [pow_one] at hk1; omega
    have hm0lt : m0 < 2 ^ 53 := by
      have hstep : h * 2 ^ (k - 1) < t := hk2 (by omega)
      have hnum : h * 2 ^ (52 + k) < 2 ^ 53 * t := by
        calc h * 2 ^ (52 + k) = h * 2 ^ (k - 1) * 2 ^ 53 := by
              rw [mul_assoc, ← pow_add]
              congr 2
              omega
          _ < t * 2 ^ 53 := (Nat.mul_lt_mul_right (by positivity)).mpr hstep
          _ = 2 ^ 53 * t := mul_comm _ _
      rw [hm0]
      exact (Nat.div_lt_iff_lt_mul ht).mpr hnum
    have hmle : m ≤ m0 + 1 := by rw [hm]; split <;> omega
    rcases Nat.lt_or_ge m (2 ^ 53) with hmlt | hmge
    · calc 2 * m < 2 * 2 ^ 53 := by omega
        _ = 2 ^ 54 := by norm_num
        _ ≤ 2 ^ (52 + k) := Nat.pow_le_pow_right (by norm_num) (by omega)
    · -- the mantissa was rounded up to 2^53
      have hcond : t < 2 * rem ∨ (2 * rem = t ∧ m0 % 2 = 1) := by
        by_contra hc
        rw [hm, if_neg hc] at hmge; omega
      have hinc : t ≤ 2 * rem := by rcases hcond with hc | ⟨hc, _⟩ <;> omega
      have hmeq : m = 2 ^ 53 := by omega
      have hm0eq : m0 = 2 ^ 53 - 1 := by
        rw [hm, if_pos hcond] at hmeq; omega
      rcases Nat.lt_or_ge k 3 with hk3 | hk3
      · -- k = 2 would need h/t within half an ulp below 1/2: impossible
        exfalso
        have hke : k = 2 := by omega
        subst hke
        rw [hm0eq] at hdm
        have e1 : (2 : ℕ) ^ (52 + 2) = 18014398509481984 := by norm_num
        have e2 : (2 : ℕ) ^ 53 - 1 = 9007199254740991 := by norm_num
        rw [e1, e2] at hdm
        have e3 : (2 : ℕ) ^ 53 = 9007199254740992 := by norm_num
        rw [e3] at htb
        omega
      · have : 2 * m = 2 ^ 54 := by rw [hmeq]; norm_num
        rw [this]
        exact Nat.pow_lt_pow_right (by norm_num) (by omega)
  · -- at or above one half: the rounded mantissa stays at or above 1/2
    simp only [not_lt.mpr hA, iff_false, not_lt]
    have hkle : k ≤ 1 := by
      by_contra hk
      push_neg at hk
      have hstep : h * 2 ^ (k - 1) < t := hk2 (by omega)
      have h2 : (2 : ℕ) ≤ 2 ^ (k - 1) := by
        calc (2 : ℕ) = 2 ^ 1 := rfl
          _ ≤ 2 ^ (k - 1) := Nat.pow_le_pow_right (by norm_num) (by omega)
      have : h * 2 ≤ h * 2 ^ (k - 1) := Nat.mul_le_mul_left h h2
      omega
    interval_cases k
    · -- k = 0 : h = t, exact quotient 1
      have hte : h = t := by
        simp only [pow_zero, mul_one] at hk1; omega
      subst hte
      have hm0e : m0 = 2 ^ 52 := by
        rw [hm0, mul_comm]
        simpa using Nat.mul_div_cancel (2 ^ (52 + 0)) ht
      have hmge : m0 ≤ m := by rw [hm]; split <;> omega
      calc (2 : ℕ) ^ (52 + 0) = 2 ^ 52 := by norm_num
        _ ≤ m := by omega
        _ ≤ 2 * m := by omega
    · -- k = 1 : the scaled quotient is at least 2^52
      have hm0ge : 2 ^ 52 ≤ m0 := by
        rw [hm0]
        rw [Nat.le_div_iff_mul_le ht]
        calc 2 ^ 52 * t ≤ 2 ^ 52 * (2 * h) := Nat.mul_le_mul_left _ hA
          _ = h * 2 ^ (52 + 1) := by ring
      have hmge : m0 ≤ m := by rw [hm]; split <;> omega
      calc (2 : ℕ) ^ (52 + 1) = 2 * 2 ^ 52 := by norm_num
        _ ≤ 2 * m := by omega

/-- Round-to-nearest (ties to even) of `h * 2^(52+k) / t` compared with the
binary64 value of `0.8`, namely `M8 / 2^53`: for `1 ≤ h ≤ t ≤ 2^53` and `k`
the binade index of `h/t`, the rounded mantissa `m` satisfies
`m / 2^(52+k) < M8 / 2^53` exactly when `h/t < 4/5`. -/
theorem round_lt_M8 (h t k m0 rem m : ℕ)
    (h1 : 1 ≤ h) (hht : h ≤ t) (htb : t ≤ 2 ^ 53)
    (hk1 : t ≤ h * 2 ^ k) (hk2 : 1 ≤ k → h * 2 ^ (k - 1) < t)
    (hm0 : m0 = h * 2 ^ (52 + k) / t) (hrem : rem = h * 2 ^ (52 + k) % t)
    (hm : m = if t < 2 * rem ∨ (2 * rem = t ∧ m0 % 2 = 1) then m0 + 1 else m0) :
    (m * 2 ^ 53 < M8 * 2 ^ (52 + k) ↔ 5 * h < 4 * t) := by
  have ht : 0 < t := lt_of_lt_of_le h1 hht
  have hdm : t * m0 + rem = h * 2 ^ (52 + k) := by
    rw [hm0, hrem]; exact Nat.div_add_mod _ t
  have hrlt : rem < t := by rw [hrem]; exact Nat.mod_lt _ ht
  rcases lt_or_ge (5 * h) (4 * t) with hB | hA
  · -- below 0.8: the rounding cannot reach M8 / 2^53
    simp only [hB, iff_true]
    have hk1' : 1 ≤ k := by
      rcases Nat.eq_zero_or_pos k with hz | hp
      · subst hz
        simp only [pow_zero, mul_one] at hk1
        omega
      · exact hp
    have hm0lt : m0 < 2 ^ 53 := by
      have hstep : h * 2 ^ (k - 1) < t := hk2 hk1'
      have hnum : h * 2 ^ (52 + k) < 2 ^ 53 * t := by
        calc h * 2 ^ (52 + k) = h * 2 ^ (k - 1) * 2 ^ 53 := by
              rw [mul_assoc, ← pow_add]
              congr 2
              omega
          _ < t * 2 ^ 53 := (Nat.mul_lt_mul_right (by positivity)).mpr hstep
          _ = 2 ^ 53 * t := mul_comm _ _
      rw [hm0]
      exact (Nat.div_lt_iff_lt_mul ht).mpr hnum
    have hmle : m ≤ m0 + 1 := by rw [hm]; split <;> omega
    rcases Nat.lt_or_ge k 2 with hk2' | hk2'
    · -- k = 1 : the mantissa stays at most M8 - 1
      have hke : k = 1 := by omega
      subst hke
      have hnum5 : 5 * (h * 2 ^ (52 + 1)) < 2 ^ 55 * t := by
        calc 5 * (h * 2 ^ (52 + 1)) = (5 * h) * 2 ^ 53 := by ring
          _ < (4 * t) * 2 ^ 53 := (Nat.mul_lt_mul_right (by positivity)).mpr hB
          _ = 2 ^ 55 * t := by ring
      have hm0le : m0 ≤ M8 - 1 := by
        have hmul : (5 * m0) * t ≤ 5 * (h * 2 ^ (52 + 1)) := by
          calc (5 * m0) * t = 5 * (t * m0) := by ring
            _ ≤ 5 * (t * m0 + rem) := by omega
            _ = 5 * (h * 2 ^ (52 + 1)) := by rw [hdm]
        have h5m0 : (5 * m0) * t < 2 ^ 55 * t := lt_of_le_of_lt hmul hnum5
        have : 5 * m0 < 2 ^ 55 := lt_of_mul_lt_mul_right h5m0 (Nat.zero_le t)
        have e : (2 : ℕ) ^ 55 = 36028797018963968 := by norm_num
        rw [e] at this
        rw [M8]
        omega
      rcases Nat.lt_or_ge m0 (M8 - 1) with hm0lt' | hm0ge'
      · -- room below the boundary mantissa: rounding up is harmless
        have : m ≤ M8 - 1 := by omega
        have : m * 2 ^ 53 ≤ (M8 - 1) * 2 ^ 53 := Nat.mul_le_mul_right _ this
        have hlt : (M8 - 1) * 2 ^ 53 < M8 * 2 ^ (52 + 1) := by
          rw [M8]; norm_num
        omega
      · -- m0 = M8 - 1 : show the tie/round-up cannot fire when t ≤ 2^53
        have hm0e : m0 = M8 - 1 := by omega
        have hnoinc : 2 * rem < t := by
          by_contra hc
          push_neg at hc
          -- t ≤ 2*rem forces h/t within half an ulp below 0.8
          rw [hm0e] at hdm
          have e1 : (2 : ℕ) ^ (52 + 1) = 9007199254740992 := by norm_num
          have e2 : M8 - 1 = 7205759403792793 := by rw [M8]
          rw [e1, e2] at hdm
          have e3 : (2 : ℕ) ^ 53 = 9007199254740992 := by norm_num
          rw [e3] at htb
          omega
        have hcondf : ¬(t < 2 * rem ∨ (2 * rem = t ∧ m0 % 2 = 1)) := by
          push_neg
          exact ⟨by omega, fun hc => absurd hc (by omega)⟩
        have hme : m = m0 := by rw [hm, if_neg hcondf]
        rw [hme, hm0e]
        rw [M8]
        norm_num
    · -- k ≥ 2 : the value is at most 1/2, well below 0.8
      have hmle' : m ≤ 2 ^ 53 := by omega
      calc m * 2 ^ 53 ≤ 2 ^ 53 * 2 ^ 53 := Nat.mul_le_mul_right _ hmle'
        _ < M8 * 2 ^ 54 := by rw [M8]; norm_num
        _ ≤ M8 * 2 ^ (52 + k) := Nat.mul_le_mul_left _
            (Nat.pow_le_pow_right (by norm_num) (by omega))
  · -- at or above 0.8: the rounded mantissa reaches M8
    simp only [not_lt.mpr hA, iff_false, not_lt]
    have hkle : k ≤ 1 := by
      by_contra hk
      push_neg at hk
      have hstep : h * 2 ^ (k - 1) < t := hk2 (by omega)
      have h2 : (2 : ℕ) ≤ 2 ^ (k - 1) := by
        calc (2 : ℕ) = 2 ^ 1 := rfl
          _ ≤ 2 ^ (k - 1) := Nat.pow_le_pow_right (by norm_num) (by omega)
      have : h * 2 ≤ h * 2 ^ (k - 1) := Nat.mul_le_mul_left h h2
      omega
    interval_cases k
    · -- k = 0 : h = t, exact quotient 1
      have hte : h = t := by
        simp only [pow_zero, mul_one] at hk1; omega
      subst hte
      have hm0e : m0 = 2 ^ 52 := by
        rw [hm0, mul_comm]
        simpa using Nat.mul_div_cancel (2 ^ (52 + 0)) ht
      have hmge : m0 ≤ m := by rw [hm]; split <;> omega
      calc M8 * 2 ^ (52 + 0) ≤ 2 ^ 53 * 2 ^ 52 := by rw [M8]; norm_num
        _ = 2 * 2 ^ 52 * 2 ^ 52 := by ring
        _ ≤ 2 * m0 * 2 ^ 52 := by
            have : 2 ^ 52 ≤ m0 := le_of_eq hm0e.symm
            exact Nat.mul_le_mul_right _ (by omega)
        _ ≤ m * 2 ^ 53 := by rw [hm0e]; nlinarith [hmge, hm0e]
    · -- k = 1 : the mantissa reaches at least M8
      have hnum5 : 2 ^ 55 * t ≤ 5 * (h * 2 ^ (52 + 1)) := by
        calc (2 : ℕ) ^ 55 * t = (4 * t) * 2 ^ 53 := by ring
          _ ≤ (5 * h) * 2 ^ 53 := Nat.mul_le_mul_right _ hA
          _ = 5 * (h * 2 ^ (52 + 1)) := by ring
      have hm0ge : M8 - 1 ≤ m0 := by
        have hup : 5 * (h * 2 ^ (52 + 1)) < (5 * (m0 + 1)) * t := by
          have hexp : t * (m0 + 1) = t * m0 + t := by ring
          have : h * 2 ^ (52 + 1) < t * (m0 + 1) := by omega
          calc 5 * (h * 2 ^ (52 + 1)) < 5 * (t * (m0 + 1)) := by omega
            _ = (5 * (m0 + 1)) * t := by ring
        have hlt : 2 ^ 55 * t < (5 * (m0 + 1)) * t := lt_of_le_of_lt hnum5 hup
        have : 2 ^ 55 < 5 * (m0 + 1) := lt_of_mul_lt_mul_right hlt (Nat.zero_le t)
        have e : (2 : ℕ) ^ 55 = 36028797018963968 := by norm_num
        rw [e] at this
        rw [M8]
        omega
      rcases Nat.lt_or_ge m0 M8 with hm0lt' | hm0ge'
      · -- m0 = M8 - 1 : the remainder is at least 3t/5, so rounding goes up
        have hm0e : m0 = M8 - 1 := by omega
        have hinc : t < 2 * rem := by
          rw [hm0e] at hdm
          have e1 : (2 : ℕ) ^ (52 + 1) = 9007199254740992 := by norm_num
          have e2 : M8 - 1 = 7205759403792793 := by rw [M8]
          rw [e1, e2] at hdm
          have e3 : (2 : ℕ) ^ (52 + 1) = 9007199254740992 := by norm_num
          -- 5*rem ≥ 3*t from the scaled lower bound, hence 2*rem > t
          have h5 : 2 ^ 55 * t ≤ 5 * (t * 7205759403792793 + rem) := by
            rw [hdm]
            calc (2:ℕ) ^ 55 * t ≤ 5 * (h * 2 ^ (52 + 1)) := hnum5
              _ = 5 * (h * 9007199254740992) := by norm_num
          have e4 : (2 : ℕ) ^ 55 = 36028797018963968 := by norm_num
          rw [e4] at h5
          omega
        have hme : m = m0 + 1 := by
          rw [hm, if_pos (Or.inl hinc)]
        rw [hme, hm0e]
        have : M8 - 1 + 1 = M8 := by rw [M8]
        rw [this]
      · have hmge : M8 ≤ m := by
          have : m0 ≤ m := by rw [hm]; split <;> omega
          omega
        calc M8 * 2 ^ (52 + 1) = M8 * 2 ^ 53 := by norm_num
          _ ≤ m * 2 ^ 53 := Nat.mul_le_mul_right _ hmge

/-- Integers up to `2^53` are binary64-exact: `cvt` is the identity there. -/
theorem cvt_eq_of_le (n : ℕ) (hn : n ≤ 2 ^ 53) : cvt n = n := by
  rw [cvt, if_pos hn]

/-- The comparison `float64(h)/float64(t) < 0.5` agrees with the exact
comparison `h/t < 1/2` whenever `h ≤ t ≤ 2^53`, `t > 0`. -/
theorem divFloat_ltHalf (h t : ℕ) (hht : h ≤ t) (ht : 0 < t)
    (htb : t ≤ 2 ^ 53) : (divFloat h t).ltHalf = decide (2 * h < t) := by
  have ht' : t ≠ 0 := ht.ne'
  rcases Nat.eq_zero_or_pos h with hz | h1
  · subst hz
    simp [divFloat, ht', GoFloat.ltHalf, ht.ne, ht, Nat.pos_pow_of_pos]
  · rw [divFloat, if_neg ht']
    simp only [GoFloat.ltHalf]
    have hk1 : t ≤ h * 2 ^ expSearch 128 h t := by
      apply expSearch_le
      calc t ≤ 2 ^ 53 := htb
        _ ≤ 2 ^ 128 := Nat.pow_le_pow_right (by norm_num) (by norm_num)
        _ ≤ h * 2 ^ 128 := by nlinarith
    have hk2 : 1 ≤ expSearch 128 h t →
        h * 2 ^ (expSearch 128 h t - 1) < t := fun hp =>
      expSearch_min 128 h t hp
    exact decide_eq_decide.mpr (round_lt_half h t (expSearch 128 h t) _ _ _
      h1 hht htb hk1 hk2 rfl rfl rfl)

/-- The comparison `float64(h)/float64(t) < 0.8` agrees with the exact
comparison `h/t < 4/5` whenever `h ≤ t ≤ 2^53`, `t > 0`. -/
theorem divFloat_ltPoint8 (h t : ℕ) (hht : h ≤ t) (ht : 0 < t)
    (htb : t ≤ 2 ^ 53) : (divFloat h t).ltPoint8 = decide (5 * h < 4 * t) := by
  have ht' : t ≠ 0 := ht.ne'
  rcases Nat.eq_zero_or_pos h with hz | h1
  · subst hz
    have hM : 0 < M8 * 2 ^ (52 + expSearch 128 0 t) := by
      rw [M8]; positivity
    simp [divFloat, ht', GoFloat.ltPoint8, ht.ne, hM, ht]
  · rw [divFloat, if_neg ht']
    simp only [GoFloat.ltPoint8]
    have hk1 : t ≤ h * 2 ^ expSearch 128 h t := by
      apply expSearch_le
      calc t ≤ 2 ^ 53 := htb
        _ ≤ 2 ^ 128 := Nat.pow_le_pow_right (by norm_num) (by norm_num)
        _ ≤ h * 2 ^ 128 := by nlinarith
    have hk2 : 1 ≤ expSearch 128 h t →
        h * 2 ^ (expSearch 128 h t - 1) < t := fun hp =>
      expSearch_min 128 h t hp
    exact decide_eq_decide.mpr (round_lt_M8 h t (expSearch 128 h t) _ _ _
      h1 hht htb hk1 hk2 rfl rfl rfl)

/-- Closed form of the color computation for counter values that fit in 53
bits (in particular, any realistic pod count): the float64 comparisons
agree with the exact rational thresholds. -/
theorem classify_eq (h t : ℕ) (hht : h ≤ t) (ht : 0 < t)
    (htb : t ≤ 2 ^ 53) :
    classify h t =
      if 2 * h < t then BADGE_COLOR_FATAL
      else if 5 * h < 4 * t then BADGE_COLOR_WARN
      else BADGE_COLOR_HEALTHY := by
  rw [classify, goRate, cvt_eq_of_le h (hht.trans htb), cvt_eq_of_le t htb,
    divFloat_ltHalf h t hht ht htb, divFloat_ltPoint8 h t hht ht htb]
  by_cases h1 : 2 * h < t <;> by_cases h2 : 5 * h < 4 * t <;>
    simp [h1, h2]

/-! ### Properties of the counting loops -/

/-- The pods loop with an arbitrary starting accumulator counts the
records accepted by `podIsHealthy`. -/
theorem podsFold_eq (pods : List Pod) (acc : ℕ) :
    pods.foldl (fun a p => if podIsHealthy p then a + 1 else a) acc
      = acc + (pods.filter podIsHealthy).length := by
  induction pods generalizing acc with
  | nil => simp
  | cons p ps ih =>
    by_cases hp : podIsHealthy p
    · simp only [List.foldl_cons, List.filter_cons, hp, if_pos, ih]
      simp
      omega
    · simp only [List.foldl_cons, List.filter_cons, hp, if_neg, ih]
      simp [hp]

/-- `healthyPodsCount` counts exactly the pods accepted by the per-pod
health test. -/
theorem healthyPodsCount_eq (pods : List Pod) :
    healthyPodsCount pods = (pods.filter podIsHealthy).length := by
  rw [healthyPodsCount, podsFold_eq]
  omega

/-- `nodeIsHealthy` is `none` exactly on an empty conditions slice. -/
theorem nodeIsHealthy_eq_none (n : Node) :
    nodeIsHealthy n = none ↔ n.conditions = [] := by
  rw [nodeIsHealthy, nodeLastCond, Option.map_eq_none']
  rw [List.getElem?_eq_none_iff]
  constructor
  · intro hle
    have : n.conditions.length = 0 := by omega
    exact List.length_eq_zero.mp this
  · intro he
    rw [he]
    simp

/-- The per-node health test as a total Boolean (false on the panicking
empty-conditions case), used to state what the nodes loop counts. -/
def nodeHealthyB (n : Node) : Bool :=
  (nodeIsHealthy n).getD false

/-- The nodes loop with an arbitrary starting accumulator: if every node
has a non-empty conditions slice it completes and counts the nodes whose
last condition has status `"True"`. -/
theorem nodesFold_some (nodes : List Node) (acc : ℕ)
    (hne : ∀ n ∈ nodes, n.conditions ≠ []) :
    nodes.foldlM
        (fun acc n =>
          match nodeIsHealthy n with
          | some b => some (if b then acc + 1 else acc)
          | none => none)
        acc
      = some (acc + (nodes.filter nodeHealthyB).length) := by
  induction nodes generalizing acc with
  | nil => simp
  | cons n ns ih =>
    have hn : n.conditions ≠ [] := hne n (List.mem_cons_self n ns)
    obtain ⟨b, hb⟩ : ∃ b, nodeIsHealthy n = some b := by
      rcases ho : nodeIsHealthy n with _ | b
      · exact absurd ((nodeIsHealthy_eq_none n).mp ho) hn
      · exact ⟨b, rfl⟩
    have hrest : ∀ n' ∈ ns, n'.conditions ≠ [] := fun n' hm =>
      hne n' (List.mem_cons_of_mem n hm)
    have hB : nodeHealthyB n = b := by rw [nodeHealthyB, hb]; rfl
    cases b with
    | true =>
      simp only [List.foldlM_cons, hb, List.filter_cons, hB, if_pos,
        Option.bind_eq_bind, Option.some_bind, ih (acc + 1) hrest]
      simp
      omega
    | false =>
      have hfc : (n :: ns).filter nodeHealthyB = ns.filter nodeHealthyB := by
        simp [List.filter_cons, hB]
      rw [hfc, List.foldlM_cons, hb]
      simpa using ih acc hrest

/-- The nodes loop with an arbitrary starting accumulator hits the
out-of-range panic as soon as some node has an empty conditions slice. -/
theorem nodesFold_none (nodes : List Node) (acc : ℕ)
    (hex : ∃ n ∈ nodes, n.conditions = []) :
    nodes.foldlM
        (fun acc n =>
          match nodeIsHealthy n with
          | some b => some (if b then acc + 1 else acc)
          | none => none)
        acc
      = none := by
  induction nodes generalizing acc with
  | nil => simp at hex
  | cons n ns ih =>
    rcases ho : nodeIsHealthy n with _ | b
    · simp [List.foldlM_cons, ho]
    · have hn : n.conditions ≠ [] := by
        intro he
        rw [(nodeIsHealthy_eq_none n).mpr he] at ho
        exact Option.noConfusion ho
      obtain ⟨n', hm, he⟩ := hex
      rcases List.mem_cons.mp hm with rfl | hm'
      · exact absurd he hn
      · simp only [List.foldlM_cons, ho, Option.bind_eq_bind,
          Option.some_bind]
        exact ih _ ⟨n', hm', he⟩

/-- `healthyNodesCount` completes exactly when every node has a non-empty
conditions slice, and then counts the nodes whose last condition is
`"True"`. -/
theorem healthyNodesCount_some (nodes : List Node)
    (hne : ∀ n ∈ nodes, n.conditions ≠ []) :
    healthyNodesCount nodes = some ((nodes.filter nodeHealthyB).length) := by
  rw [healthyNodesCount, nodesFold_some nodes 0 hne]
  simp

/-- `healthyNodesCount` panics (returns `none`) whenever some node has an
empty conditions slice. -/
theorem healthyNodesCount_none (nodes : List Node)
    (hex : ∃ n ∈ nodes, n.conditions = []) :
    healthyNodesCount nodes = none :=
  nodesFold_none nodes 0 hex

/-! ### Rational bridges for the threshold statements -/

/-- `h/t < 1/2` over ℚ is the integer comparison `2h < t`. -/
theorem ratio_lt_half_iff (h t : ℕ) (ht : 0 < t) :
    ((h : ℚ) / t < 1 / 2) ↔ 2 * h < t := by
  have htq : (0 : ℚ) < t := by exact_mod_cast ht
  rw [div_lt_iff₀ htq]
  constructor
  · intro hlt
    have : (2 * h : ℚ) < t := by linarith
    exact_mod_cast this
  · intro hlt
    have : (2 * h : ℚ) < t := by exact_mod_cast hlt
    linarith

/-- `h/t < 4/5` over ℚ is the integer comparison `5h < 4t`. -/
theorem ratio_lt_point8_iff (h t : ℕ) (ht : 0 < t) :
    ((h : ℚ) / t < 4 / 5) ↔ 5 * h < 4 * t := by
  have htq : (0 : ℚ) < t := by exact_mod_cast ht
  rw [div_lt_iff₀ htq]
  constructor
  · intro hlt
    have : (5 * h : ℚ) < 4 * t := by linarith
    exact_mod_cast this
  · intro hlt
    have : (5 * h : ℚ) < 4 * t := by exact_mod_cast hlt
    linarith

/-! ### Claims -/

/-- C1 (counterexample): the spec's end-to-end scenario 2 — 4 nodes, 1
with last condition status "True", 3 with "False" (ratio 0.25) — does NOT
produce the fatal color on `/nodes`: the code answers with the constant
color `"blue"`, although the three-tier classification of 1/4 is fatal
(`"red"`).  `handleNodes` never applies the classification
(main.go:155 hardcodes `"blue"`). -/
theorem c1_counterexample :
    handleNodes
        (Except.ok [Node.mk [NodeCondition.mk "True"],
          Node.mk [NodeCondition.mk "False"],
          Node.mk [NodeCondition.mk "False"],
          Node.mk [NodeCondition.mk "False"]]) "prod"
      = some ⟨200, Body.badge ⟨1, "nodes(prod)", "1/4", "blue"⟩⟩ ∧
    classify 1 4 = BADGE_COLOR_FATAL ∧
    BADGE_COLOR_FATAL ≠ "blue" :=
  ⟨by decide, by decide, by decide⟩

/-- C1 (amended): the color field of every successful `/nodes` badge
response is the constant `"blue"`, independent of the healthy/total
ratio — the three-tier classification is not applied in `handleNodes`. -/
theorem c1_nodes_color_constant (q : Except String (List Node))
    (env : String) (r : Response) (b : Badge)
    (hr : handleNodes q env = some r) (hb : r.body = Body.badge b) :
    b.color = "blue" := by
  cases q with
  | error e =>
    simp only [handleNodes] at hr
    obtain rfl := Option.some.inj hr
    simp at hb
  | ok nodes =>
    rcases hc : healthyNodesCount nodes with _ | h
    · simp only [handleNodes, hc] at hr
      exact Option.noConfusion hr
    · simp only [handleNodes, hc] at hr
      obtain rfl := Option.some.inj hr
      simp only [Body.badge.injEq] at hb
      rw [← hb]

/-- C1 (witness): the amended theorem applied to a concrete one-node
request. -/
theorem c1_witness : (Badge.mk 1 "nodes(e)" "1/1" "blue").color = "blue" :=
  c1_nodes_color_constant (Except.ok [Node.mk [NodeCondition.mk "True"]])
    "e" ⟨200, Body.badge ⟨1, "nodes(e)", "1/1", "blue"⟩⟩
    ⟨1, "nodes(e)", "1/1", "blue"⟩ (by decide) rfl

/-- C2: with `healthy = 0` and `total = 0` the color computation completes
without a runtime fault and deterministically yields the healthy color:
Go's `0.0/0.0` is NaN (float64 division never panics), every `<`
comparison against NaN is false, so both threshold tests fail and the
`else` branch produces `BADGE_COLOR_HEALTHY` (`"blue"`). -/
theorem c2_zero_total :
    goRate 0 0 = GoFloat.nan ∧ classify 0 0 = BADGE_COLOR_HEALTHY :=
  ⟨by decide, by decide⟩

/-- C3 (amended): for all `h ≤ t` with `0 < t ≤ 2^53` the float64 color
computation of `handlePods` matches the exact three-band classification:
fatal iff `h/t < 1/2`, warn iff `1/2 ≤ h/t < 4/5`, healthy iff
`h/t ≥ 4/5`, each band closed on its lower bound.  (Beyond `2^53` the
claim fails, see the counterexample.) -/
theorem c3_classify_thresholds (h t : ℕ) (hht : h ≤ t) (ht : 0 < t)
    (htb : t ≤ 2 ^ 53) :
    (classify h t = BADGE_COLOR_FATAL ↔ (h : ℚ) / t < 1 / 2) ∧
    (classify h t = BADGE_COLOR_WARN ↔
      1 / 2 ≤ (h : ℚ) / t ∧ (h : ℚ) / t < 4 / 5) ∧
    (classify h t = BADGE_COLOR_HEALTHY ↔ 4 / 5 ≤ (h : ℚ) / t) := by
  have e1 : ((h : ℚ) / t < 1 / 2) = (2 * h < t) :=
    propext (ratio_lt_half_iff h t ht)
  have e2 : ((h : ℚ) / t < 4 / 5) = (5 * h < 4 * t) :=
    propext (ratio_lt_point8_iff h t ht)
  simp only [← not_lt]
  rw [classify_eq h t hht ht htb, e1, e2]
  by_cases h1 : 2 * h < t <;> by_cases h2 : 5 * h < 4 * t
  · simp [h1, h2, BADGE_COLOR_FATAL, BADGE_COLOR_WARN, BADGE_COLOR_HEALTHY]
  · omega
  · simp [h1, h2, BADGE_COLOR_FATAL, BADGE_COLOR_WARN, BADGE_COLOR_HEALTHY]
  · simp [h1, h2, BADGE_COLOR_FATAL, BADGE_COLOR_WARN, BADGE_COLOR_HEALTHY]

/-- C3 (witness): the three bands at concrete ratios 1/4, 2/4 and 4/5. -/
theorem c3_witness :
    classify 1 4 = BADGE_COLOR_FATAL ∧ classify 2 4 = BADGE_COLOR_WARN ∧
    classify 4 5 = BADGE_COLOR_HEALTHY :=
  ⟨(c3_classify_thresholds 1 4 (by norm_num) (by norm_num)
      (by norm_num)).1.mpr (by norm_num),
   (c3_classify_thresholds 2 4 (by norm_num) (by norm_num)
      (by norm_num)).2.1.mpr (by norm_num),
   (c3_classify_thresholds 4 5 (by norm_num) (by norm_num)
      (by norm_num)).2.2.mpr (by norm_num)⟩

set_option maxRecDepth 8000 in
/-- C3 (counterexample): the band equivalence is NOT true for all
integers `h ≤ t`.  At `h = 14411518807585587`, `t = 2^54` the exact ratio
is below 4/5, yet the code yields the healthy color: `float64(h)` rounds
up (ties-to-even) to `14411518807585588`, whose quotient by `2^54` is
exactly the float64 value of the literal `0.8`, so `rate < 0.8` is
false. -/
theorem c3_counterexample :
    classify 14411518807585587 18014398509481984 = BADGE_COLOR_HEALTHY ∧
    ¬ (4 / 5 ≤ (14411518807585587 : ℚ) / 18014398509481984) := by
  constructor
  · decide
  · norm_num

/-- C4: for every node record whose conditions sequence is non-empty
(written `pre ++ [c]`), the health test reads exactly the last condition:
the node counts as healthy iff `c.status = "True"`, regardless of the
status of any condition in `pre`. -/
theorem c4_node_last_condition (pre : List NodeCondition)
    (c : NodeCondition) :
    nodeIsHealthy ⟨pre ++ [c]⟩ = some (c.status == "True") := by
  have hidx : (pre ++ [c])[(pre ++ [c]).length - 1]? = some c := by
    have hlen : (pre ++ [c]).length - 1 = pre.length := by simp
    rw [hlen]
    exact List.getElem?_concat_length pre c
  rw [nodeIsHealthy, nodeLastCond]
  show ((pre ++ [c])[(pre ++ [c]).length - 1]?).map _ = _
  rw [hidx]
  rfl

/-- C5: the pod health test accepts phase "Running" and rejects phases
"Pending" and "Failed" (the code additionally accepts "Succeeded", which
the claim does not mention and does not exclude). -/
theorem c5_pod_phase_policy :
    podIsHealthy ⟨"Running"⟩ = true ∧ podIsHealthy ⟨"Pending"⟩ = false ∧
    podIsHealthy ⟨"Failed"⟩ = false := by
  decide

/-- C6 (counterexample): with a successful query the handler does not
always answer 200 — a node list containing a node with an empty conditions
slice makes `handleNodes` panic (out-of-range index) instead of producing
any response. -/
theorem c6_counterexample :
    handleNodes (Except.ok [Node.mk []]) "env" = none ∧
    ¬ ∃ r : Response, handleNodes (Except.ok [Node.mk []]) "env" = some r ∧
        r.status = 200 := by
  refine ⟨by decide, ?_⟩
  rintro ⟨r, hr, -⟩
  rw [(by decide : handleNodes (Except.ok [Node.mk []]) "env" = none)] at hr
  exact Option.noConfusion hr

/-- C6 (amended): a failed cluster query makes `/pods` and `/nodes` answer
500 with the error text verbatim as body; a successful query makes
`/pods` answer 200 unconditionally, and `/nodes` answer 200 provided every
listed node has a non-empty conditions slice. -/
theorem c6_error_propagation (e env : String) (pods : List Pod)
    (nodes : List Node) (hconds : ∀ n ∈ nodes, n.conditions ≠ []) :
    handlePods (Except.error e) env = ⟨500, Body.text e⟩ ∧
    handleNodes (Except.error e) env = some ⟨500, Body.text e⟩ ∧
    (handlePods (Except.ok pods) env).status = 200 ∧
    ∃ r : Response, handleNodes (Except.ok nodes) env = some r ∧
      r.status = 200 := by
  refine ⟨rfl, rfl, rfl, ?_⟩
  refine ⟨⟨200, Body.badge ⟨1, "nodes(" ++ env ++ ")",
    Nat.repr ((nodes.filter nodeHealthyB).length) ++ "/" ++
      Nat.repr nodes.length, "blue"⟩⟩, ?_, rfl⟩
  simp [handleNodes, healthyNodesCount_some nodes hconds]

/-- C6 (witness): the amended theorem at a failing and at a succeeding
concrete query. -/
theorem c6_witness :
    handlePods (Except.error "boom") "e" = ⟨500, Body.text "boom"⟩ ∧
    handleNodes (Except.error "boom") "e" = some ⟨500, Body.text "boom"⟩ ∧
    (handlePods (Except.ok ([] : List Pod)) "e").status = 200 ∧
    ∃ r : Response,
      handleNodes (Except.ok [Node.mk [NodeCondition.mk "True"]]) "e"
        = some r ∧ r.status = 200 :=
  c6_error_propagation "boom" "e" [] [Node.mk [NodeCondition.mk "True"]]
    (by intro n hn; rw [List.mem_singleton] at hn; subst hn; simp)

/-- C7: every successful `/pods` response is a badge document with
`schemaVersion 1`, label `pods(<env>)` and message `<healthy>/<total>`;
for `/nodes` the same shape with label `nodes(<env>)`. -/
theorem c7_badge_document_shape (pods : List Pod) (nodes : List Node)
    (env : String) (c : ℕ) (hc : healthyNodesCount nodes = some c) :
    (∃ b : Badge, handlePods (Except.ok pods) env = ⟨200, Body.badge b⟩ ∧
      b.schemaVersion = 1 ∧ b.label = "pods(" ++ env ++ ")" ∧
      b.message = Nat.repr (healthyPodsCount pods) ++ "/" ++
        Nat.repr pods.length) ∧
    (∃ b : Badge, handleNodes (Except.ok nodes) env =
        some ⟨200, Body.badge b⟩ ∧
      b.schemaVersion = 1 ∧ b.label = "nodes(" ++ env ++ ")" ∧
      b.message = Nat.repr c ++ "/" ++ Nat.repr nodes.length) := by
  constructor
  · exact ⟨_, rfl, rfl, rfl, rfl⟩
  · refine ⟨⟨1, "nodes(" ++ env ++ ")",
      Nat.repr c ++ "/" ++ Nat.repr nodes.length, "blue"⟩, ?_, rfl, rfl, rfl⟩
    simp [handleNodes, hc]

/-- C7 (witness): the badge shape at a concrete one-pod / one-node
cluster. -/
theorem c7_witness :
    (∃ b : Badge, handlePods (Except.ok [Pod.mk "Running"]) "s"
        = ⟨200, Body.badge b⟩ ∧
      b.schemaVersion = 1 ∧ b.label = "pods(" ++ "s" ++ ")" ∧
      b.message = Nat.repr (healthyPodsCount [Pod.mk "Running"]) ++ "/" ++
        Nat.repr ([Pod.mk "Running"] : List Pod).length) ∧
    (∃ b : Badge,
      handleNodes (Except.ok [Node.mk [NodeCondition.mk "True"]]) "s"
        = some ⟨200, Body.badge b⟩ ∧
      b.schemaVersion = 1 ∧ b.label = "nodes(" ++ "s" ++ ")" ∧
      b.message = Nat.repr 1 ++ "/" ++
        Nat.repr ([Node.mk [NodeCondition.mk "True"]] : List Node).length) :=
  c7_badge_document_shape [Pod.mk "Running"]
    [Node.mk [NodeCondition.mk "True"]] "s" 1 (by decide)

/-- C8: `GET /healthz` and `HEAD /healthz` are routed to the same handler,
which answers 200 with body "ok" whatever the state of the cluster handle
is (its argument is ignored), so a broken or unset cluster handle still
yields 200. -/
theorem c8_healthz_constant (s1 s2 : ClusterState) :
    healthz s1 = ⟨200, Body.text "ok"⟩ ∧ healthz s1 = healthz s2 ∧
    routes.lookup ("GET", "/healthz") = some HandlerTag.healthzTag ∧
    routes.lookup ("HEAD", "/healthz") = some HandlerTag.healthzTag :=
  ⟨rfl, rfl, by decide, by decide⟩

/-- C9: the aggregations are single folds over the input list; the healthy
count equals the number of records satisfying the health predicate and
never exceeds the total (the list length). -/
theorem c9_aggregation_invariant (pods : List Pod) (nodes : List Node)
    (c : ℕ) (hc : healthyNodesCount nodes = some c) :
    healthyPodsCount pods = (pods.filter podIsHealthy).length ∧
    healthyPodsCount pods ≤ pods.length ∧
    c = (nodes.filter nodeHealthyB).length ∧ c ≤ nodes.length := by
  have h1 := healthyPodsCount_eq pods
  have hne : ∀ n ∈ nodes, n.conditions ≠ [] := by
    intro n hn he
    rw [healthyNodesCount_none nodes ⟨n, hn, he⟩] at hc
    exact Option.noConfusion hc
  have h2 := healthyNodesCount_some nodes hne
  rw [h2] at hc
  obtain rfl := Option.some.inj hc
  refine ⟨h1, ?_, rfl, List.length_filter_le _ _⟩
  rw [h1]
  exact List.length_filter_le _ _

/-- C9 (witness): the aggregation invariant at a concrete two-pod,
two-node cluster. -/
theorem c9_witness :
    healthyPodsCount [Pod.mk "Running", Pod.mk "Pending"] =
      (([Pod.mk "Running", Pod.mk "Pending"] : List Pod).filter
        podIsHealthy).length ∧
    healthyPodsCount [Pod.mk "Running", Pod.mk "Pending"] ≤
      ([Pod.mk "Running", Pod.mk "Pending"] : List Pod).length ∧
    1 = (([Node.mk [NodeCondition.mk "True"],
        Node.mk [NodeCondition.mk "False"]] : List Node).filter
        nodeHealthyB).length ∧
    1 ≤ ([Node.mk [NodeCondition.mk "True"],
        Node.mk [NodeCondition.mk "False"]] : List Node).length :=
  c9_aggregation_invariant [Pod.mk "Running", Pod.mk "Pending"]
    [Node.mk [NodeCondition.mk "True"], Node.mk [NodeCondition.mk "False"]]
    1 (by decide)

/-- C10: the node aggregation is total exactly under the precondition that
every listed node has a non-empty conditions slice; any input containing a
node with an empty conditions slice drives the `/nodes` handler into the
out-of-range branch of `conditions[len(conditions)-1]` (no response is
produced — a runtime panic). -/
theorem c10_nodes_panic_reachable (nodes : List Node) (env : String) :
    ((∀ n ∈ nodes, n.conditions ≠ []) →
      (handleNodes (Except.ok nodes) env).isSome = true) ∧
    ((∃ n ∈ nodes, n.conditions = []) →
      handleNodes (Except.ok nodes) env = none) := by
  constructor
  · intro hne
    simp [handleNodes, healthyNodesCount_some nodes hne]
  · intro hex
    simp [handleNodes, healthyNodesCount_none nodes hex]

/-- C10 (witness): totality on a concrete well-formed node and the panic
on a concrete node with an empty conditions slice. -/
theorem c10_witness :
    (handleNodes (Except.ok [Node.mk [NodeCondition.mk "True"]]) "e").isSome
      = true ∧
    handleNodes (Except.ok [Node.mk []]) "e" = none :=
  ⟨(c10_nodes_panic_reachable [Node.mk [NodeCondition.mk "True"]] "e").1
      (by intro n hn; rw [List.mem_singleton] at hn; subst hn; simp),
   (c10_nodes_panic_reachable [Node.mk []] "e").2
      ⟨Node.mk [], List.mem_singleton_self _, rfl⟩⟩

end K8sBadge
